import Mathlib

/-!
Verification of the notification-bot pipeline in `api/index.py` and
`api/hourly_report.py`.

Python strings are modelled as `List Char`; every helper below is a direct
translation of the corresponding Python function, with external effects
(HTTP sends, the spreadsheet fetch) modelled by explicit outcome parameters.
-/

/-- Python `str` values are modelled as lists of characters. -/
abbrev Str := List Char

/-- Python `str.strip()` (ASCII-whitespace approximation): drop leading and
trailing whitespace. -/
def strip_str (s : Str) : Str :=
  ((s.dropWhile Char.isWhitespace).reverse.dropWhile Char.isWhitespace).reverse

/-- Python `str.upper()` (ASCII approximation). -/
def upper_str (s : Str) : Str := s.map Char.toUpper

/-- Python `text.split('\n')`: split on every newline, keeping empty pieces,
so the result is always nonempty. -/
def split_nl : Str → List Str
  | [] => [[]]
  | c :: rest =>
    if c = '\n' then [] :: split_nl rest
    else
      match split_nl rest with
      | [] => [[c]]
      | l :: ls => (c :: l) :: ls

/-- Rejoin a list of pieces with the `'\n'` separator that `split_nl`
removed (Python `'\n'.join`). -/
def join_nl : List Str → Str
  | [] => []
  | [s] => s
  | s :: s2 :: rest => s ++ '\n' :: join_nl (s2 :: rest)

/-- The accumulation loop of `send_chunked_message` (index.py lines 38-49):
`current` is `current_chunk`; a text is emitted exactly when the Python code
calls `send_message`. -/
def chunk_loop (chunk_size : Nat) : List Str → Str → List Str
  | [], current => if current.isEmpty then [] else [current]
  | line :: rest, current =>
    if current.length + line.length + 1 > chunk_size then
      current :: chunk_loop chunk_size rest line
    else if current.isEmpty then
      chunk_loop chunk_size rest line
    else
      chunk_loop chunk_size rest (current ++ '\n' :: line)

/-- `send_chunked_message` (index.py lines 30-49), as the list of texts passed
to `send_message`, in call order.  The fast path sends the whole text when it
already fits. -/
def send_chunked_message (text : Str) (chunk_size : Nat) : List Str :=
  if text.length ≤ chunk_size then [text]
  else chunk_loop chunk_size (split_nl text) []

theorem split_nl_ne_nil (s : Str) : split_nl s ≠ [] := by
  cases s with
  | nil => simp [split_nl]
  | cons c rest =>
    by_cases h : c = '\n'
    · simp [split_nl, h]
    · simp only [split_nl, if_neg h]
      cases hrest : split_nl rest <;> simp

theorem join_nl_cons_of_ne_nil (a : Str) (l : List Str) (h : l ≠ []) :
    join_nl (a :: l) = a ++ '\n' :: join_nl l := by
  cases l with
  | nil => exact absurd rfl h
  | cons b t => rfl

theorem join_nl_split_nl (s : Str) : join_nl (split_nl s) = s := by
  induction s with
  | nil => rfl
  | cons c rest ih =>
    by_cases h : c = '\n'
    · subst h
      rw [show split_nl ('\n' :: rest) = [] :: split_nl rest from by simp [split_nl]]
      rw [join_nl_cons_of_ne_nil _ _ (split_nl_ne_nil rest), ih]
      rfl
    · simp only [split_nl, if_neg h]
      cases hrest : split_nl rest with
      | nil => exact absurd hrest (split_nl_ne_nil rest)
      | cons l ls =>
        cases ls with
        | nil =>
          simp only [join_nl]
          rw [hrest] at ih
          simp only [join_nl] at ih
          simp [ih]
        | cons l2 ls2 =>
          simp only [join_nl]
          rw [hrest] at ih
          rw [join_nl_cons_of_ne_nil _ _ (by simp)] at ih
          simp [ih]

theorem chunk_loop_bound (M : Nat) (S : List Str) :
    ∀ (lines : List Str) (cur : Str), (cur.length ≤ M ∨ cur ∈ S) →
      (∀ l ∈ lines, l ∈ S) → ∀ c ∈ chunk_loop M lines cur, c.length ≤ M ∨ c ∈ S := by
  intro lines
  induction lines with
  | nil =>
    intro cur hcur _ c hc
    simp only [chunk_loop] at hc
    split at hc
    · simp at hc
    · simp at hc
      subst hc
      exact hcur
  | cons line rest ih =>
    intro cur hcur hlin c hc
    have hlineS : line ∈ S := hlin line (by simp)
    have hrestS : ∀ l ∈ rest, l ∈ S := fun l hl => hlin l (by simp [hl])
    simp only [chunk_loop] at hc
    split at hc
    · rcases List.mem_cons.mp hc with hceq | hcmem
      · subst hceq; exact hcur
      · exact ih line (Or.inr hlineS) hrestS c hcmem
    · split at hc
      · exact ih line (Or.inr hlineS) hrestS c hc
      · next hbig hne =>
        have hlen : cur.length + line.length + 1 ≤ M := by omega
        refine ih (cur ++ '\n' :: line) (Or.inl ?_) hrestS c hc
        simp only [List.length_append, List.length_cons]
        omega

/-- C5: every chunk produced by `send_chunked_message` has length at most
`chunk_size`, and any chunk exceeding `chunk_size` is exactly one of the
original lines of the text (an oversized line carried whole, never truncated
or split). -/
theorem chunker_size_bound (T : Str) (M : Nat) (c : Str)
    (hc : c ∈ send_chunked_message T M) :
    c.length ≤ M ∨ (M < c.length ∧ c ∈ split_nl T) := by
  unfold send_chunked_message at hc
  split at hc
  · next h =>
    simp at hc
    subst hc
    exact Or.inl h
  · have hb := chunk_loop_bound M (split_nl T) (split_nl T) []
      (Or.inl (by simp)) (fun l hl => hl) c hc
    rcases hb with h1 | h2
    · exact Or.inl h1
    · rcases le_or_lt c.length M with h3 | h3
      · exact Or.inl h3
      · exact Or.inr ⟨h3, h2⟩

/-- C5 witness: for text `"aaaa\nbb"` and size 3, the oversized chunk
`"aaaa"` is an original line carried whole. -/
theorem chunker_size_bound_witness :
    ("aaaa".toList ∈ send_chunked_message ("aaaa\nbb".toList) 3) ∧
    (("aaaa".toList : Str).length ≤ 3 ∨
      (3 < ("aaaa".toList : Str).length ∧ "aaaa".toList ∈ split_nl ("aaaa\nbb".toList))) :=
  ⟨by decide, chunker_size_bound ("aaaa\nbb".toList) 3 ("aaaa".toList) (by decide)⟩

theorem chunk_loop_ne_nil (M : Nat) :
    ∀ (lines : List Str) (cur : Str), cur ≠ [] → chunk_loop M lines cur ≠ [] := by
  intro lines
  induction lines with
  | nil =>
    intro cur hcur
    simp only [chunk_loop]
    rw [if_neg (by simpa using hcur)]
    simp
  | cons line rest ih =>
    intro cur hcur
    simp only [chunk_loop]
    split
    · simp
    · split
      · next hne hemp => exact absurd (by simpa using hemp) hcur
      · exact ih (cur ++ '\n' :: line) (by simp)

theorem chunk_loop_no_empty (M : Nat) :
    ∀ (lines : List Str) (cur : Str), cur ≠ [] → (∀ l ∈ lines, l ≠ []) →
      [] ∉ chunk_loop M lines cur := by
  intro lines
  induction lines with
  | nil =>
    intro cur hcur _
    simp only [chunk_loop]
    rw [if_neg (by simpa using hcur)]
    simp
    exact fun h => hcur h
  | cons line rest ih =>
    intro cur hcur hlin
    have hline : line ≠ [] := hlin line (by simp)
    have hrest : ∀ l ∈ rest, l ≠ [] := fun l hl => hlin l (by simp [hl])
    simp only [chunk_loop]
    split
    · intro hmem
      rcases List.mem_cons.mp hmem with h | h
      · exact hcur h.symm
      · exact ih line hline hrest h
    · split
      · next hemp => exact absurd (by simpa using ‹cur.isEmpty = true›) hcur
      · exact ih (cur ++ '\n' :: line) (by simp) hrest

theorem chunk_loop_join (M : Nat) :
    ∀ (lines : List Str) (cur : Str), cur ≠ [] → (∀ l ∈ lines, l ≠ []) →
      join_nl (chunk_loop M lines cur) = join_nl (cur :: lines) := by
  intro lines
  induction lines with
  | nil =>
    intro cur hcur _
    simp only [chunk_loop]
    rw [if_neg (by simpa using hcur)]
  | cons line rest ih =>
    intro cur hcur hlin
    have hline : line ≠ [] := hlin line (by simp)
    have hrest : ∀ l ∈ rest, l ≠ [] := fun l hl => hlin l (by simp [hl])
    simp only [chunk_loop]
    split
    · rw [join_nl_cons_of_ne_nil _ _ (chunk_loop_ne_nil M rest line hline)]
      rw [ih line hline hrest]
      rfl
    · split
      · next hemp => exact absurd (by simpa using ‹cur.isEmpty = true›) hcur
      · rw [ih (cur ++ '\n' :: line) (by simp) hrest]
        cases rest with
        | nil => simp [join_nl]
        | cons r rs =>
          rw [join_nl_cons_of_ne_nil _ (r :: rs) (by simp),
            join_nl_cons_of_ne_nil _ (line :: r :: rs) (by simp),
            join_nl_cons_of_ne_nil _ (r :: rs) (by simp)]
          simp

/-- C1 (amended): splitting never loses text provided no line of the input is
empty and the first line is shorter than `chunk_size`; then rejoining the
chunks with newlines reconstructs the text exactly and no empty chunk is
emitted.  (A text that already fits is returned as the single exact chunk.) -/
theorem chunker_round_trip (T : Str) (M : Nat) (_hM : 1 ≤ M) :
    (T.length ≤ M → send_chunked_message T M = [T]) ∧
    ((∀ l ∈ split_nl T, l ≠ []) → (split_nl T).headI.length < M →
      join_nl (send_chunked_message T M) = T ∧ [] ∉ send_chunked_message T M) := by
  constructor
  · intro hlen
    unfold send_chunked_message
    rw [if_pos hlen]
  · intro hlines hhead
    have hTne : T ≠ [] := by
      intro hT
      subst hT
      exact hlines [] (by simp [split_nl]) rfl
    by_cases hlen : T.length ≤ M
    · unfold send_chunked_message
      rw [if_pos hlen]
      constructor
      · rfl
      · simp
        exact fun h => hTne h
    · unfold send_chunked_message
      rw [if_neg hlen]
      obtain ⟨l0, ls, hE⟩ := List.exists_cons_of_ne_nil (split_nl_ne_nil T)
      rw [hE]
      have hl0 : l0.length < M := by
        rw [hE] at hhead
        simpa using hhead
      have hstep : chunk_loop M (l0 :: ls) [] = chunk_loop M ls l0 := by
        simp only [chunk_loop, List.length_nil]
        rw [if_neg (by omega)]
        simp
      rw [hstep]
      have hl0ne : l0 ≠ [] := hlines l0 (by rw [hE]; simp)
      have hlsne : ∀ l ∈ ls, l ≠ [] := fun l hl => hlines l (by rw [hE]; simp [hl])
      constructor
      · rw [chunk_loop_join M ls l0 hl0ne hlsne, ← hE, join_nl_split_nl]
      · exact chunk_loop_no_empty M ls l0 hl0ne hlsne

/-- C1 counterexample: for the single-line text `"aaaa"` and maxSize 3 the
chunker emits an extra empty chunk and newline-rejoining the chunks yields
`"\naaaa"`, not the original text. -/
theorem chunker_round_trip_counterexample :
    join_nl (send_chunked_message ("aaaa".toList) 3) ≠ "aaaa".toList ∧
    [] ∈ send_chunked_message ("aaaa".toList) 3 := by
  constructor
  · decide
  · decide

/-- C1 witness: on `"ab\ncd"` with maxSize 3 the amended round trip holds. -/
theorem chunker_round_trip_witness :
    join_nl (send_chunked_message ("ab\ncd".toList) 3) = "ab\ncd".toList ∧
    [] ∉ send_chunked_message ("ab\ncd".toList) 3 :=
  (chunker_round_trip ("ab\ncd".toList) 3 (by decide)).2 (by decide) (by decide)

/-- ASCII approximation of the regex word class `\w` used by the `\b`
boundaries in `re.findall(r'\binc\d+\b', text, re.IGNORECASE)`. -/
def is_word_char (c : Char) : Bool := c.isAlphanum || c = '_'

/-- Greedily consume a leading run of digits (the `\d+` part), returning the
run and the remaining characters. -/
def take_digits : Str → Str × Str
  | [] => ([], [])
  | c :: rest =>
    if c.isDigit then
      let p := take_digits rest
      (c :: p.1, p.2)
    else ([], c :: rest)

/-- The trailing `\b`: the next character, if any, is not a word character.
(With greedy `\d+` no shorter digit run can restore the boundary, since the
following character would then be a digit.) -/
def boundary_after : Str → Bool
  | [] => true
  | c :: _ => !is_word_char c

/-- Case-insensitive comparison of one character against a lowercase letter
(the `re.IGNORECASE` flag). -/
def lower_eq (c x : Char) : Bool := c.toLower = x

/-- Try to match `inc\d+\b` (case-insensitively) at the head of the input,
returning the matched token and the rest of the input.  The leading `\b` is
checked by the caller. -/
def match_inc : Str → Option (Str × Str)
  | c1 :: c2 :: c3 :: rest =>
    if lower_eq c1 'i' && lower_eq c2 'n' && lower_eq c3 'c' then
      let p := take_digits rest
      if p.1.isEmpty then none
      else if boundary_after p.2 then some (c1 :: c2 :: c3 :: p.1, p.2) else none
    else none
  | _ => none

/-- Left-to-right scan of `re.findall`: attempt a match at each position whose
preceding character is not a word character (the leading `\b`), and continue
after the end of each match.  `fuel` bounds the recursion; each step consumes
at least one character, so `fuel = length` never runs out. -/
def find_inc_fuel : Nat → Bool → Str → List Str
  | 0, _, _ => []
  | _ + 1, _, [] => []
  | fuel + 1, prevWord, c :: rest =>
    if prevWord then
      find_inc_fuel fuel (is_word_char c) rest
    else
      match match_inc (c :: rest) with
      | some p => p.1 :: find_inc_fuel fuel true p.2
      | none => find_inc_fuel fuel (is_word_char c) rest

/-- `re.findall(r'\binc\d+\b', text, re.IGNORECASE)` (index.py line 123): the
matched tokens in order of occurrence, in original case. -/
def findall_inc (text : Str) : List Str := find_inc_fuel text.length false text

/-- Python string comparison, lexicographic by code point: `a <= b`. -/
def str_le : Str → Str → Bool
  | [], _ => true
  | _ :: _, [] => false
  | a :: as, b :: bs => if a < b then true else if b < a then false else str_le as bs

/-- A list of strings is in ascending order (adjacent pairs). -/
def sorted_str : List Str → Bool
  | [] => true
  | [_] => true
  | a :: b :: rest => str_le a b && sorted_str (b :: rest)

/-- Insert a string into an ascending list, keeping it ascending. -/
def insert_str (s : Str) : List Str → List Str
  | [] => [s]
  | t :: ts => if str_le s t then s :: t :: ts else t :: insert_str s ts

/-- Python `sorted` on a list of strings (insertion sort; on distinct
elements any correct sort yields the same ascending sequence). -/
def sort_strs (l : List Str) : List Str := l.foldr insert_str []

/-- Python `set(...)`: keep one copy of each string. -/
def dedup_strs : List Str → List Str
  | [] => []
  | s :: ts => if s ∈ ts then dedup_strs ts else s :: dedup_strs ts

/-- `sorted(list(set(id.upper() for id in incident_ids)))`
(index.py line 130). -/
def unique_ids (text : Str) : List Str :=
  sort_strs (dedup_strs ((findall_inc text).map upper_str))

theorem insert_str_perm (s : Str) (l : List Str) :
    List.Perm (insert_str s l) (s :: l) := by
  induction l with
  | nil => exact List.Perm.refl _
  | cons t ts ih =>
    simp only [insert_str]
    split
    · exact List.Perm.refl _
    · exact (ih.cons t).trans (List.Perm.swap s t ts)

theorem sort_strs_perm (l : List Str) : List.Perm (sort_strs l) l := by
  induction l with
  | nil => exact List.Perm.refl _
  | cons s ts ih => exact (insert_str_perm s (sort_strs ts)).trans (ih.cons s)

theorem mem_sort_strs (a : Str) (l : List Str) : a ∈ sort_strs l ↔ a ∈ l :=
  (sort_strs_perm l).mem_iff

theorem mem_dedup_strs (a : Str) (l : List Str) : a ∈ dedup_strs l ↔ a ∈ l := by
  induction l with
  | nil => simp [dedup_strs]
  | cons s ts ih =>
    simp only [dedup_strs]
    split
    · next hmem =>
      rw [ih]
      constructor
      · exact fun h => by simp [h]
      · intro h
        rcases List.mem_cons.mp h with h | h
        · subst h; exact hmem
        · exact h
    · simp [ih]

theorem nodup_dedup_strs (l : List Str) : (dedup_strs l).Nodup := by
  induction l with
  | nil => simp [dedup_strs]
  | cons s ts ih =>
    simp only [dedup_strs]
    split
    · exact ih
    · next hmem =>
      exact List.Nodup.cons (fun h => hmem ((mem_dedup_strs s ts).mp h)) ih

theorem str_le_total (a b : Str) : str_le a b = true ∨ str_le b a = true := by
  induction a generalizing b with
  | nil => left; rfl
  | cons c cs ih =>
    cases b with
    | nil => right; rfl
    | cons d ds =>
      rcases lt_trichotomy c d with h | h | h
      · left
        simp [str_le, h]
      · subst h
        have hred : ∀ x : Str, ∀ y : Str, str_le (c :: x) (c :: y) = str_le x y := by
          intro x y
          simp [str_le]
        rw [hred, hred]
        exact ih ds
      · right
        simp [str_le, h]

theorem sorted_str_cons_tail (t : Str) (ts : List Str)
    (hl : sorted_str (t :: ts) = true) : sorted_str ts = true := by
  cases ts with
  | nil => rfl
  | cons u us =>
    simp only [sorted_str, Bool.and_eq_true] at hl
    exact hl.2

theorem sorted_str_cons_head (t u : Str) (us : List Str)
    (hl : sorted_str (t :: u :: us) = true) : str_le t u = true := by
  simp only [sorted_str, Bool.and_eq_true] at hl
  exact hl.1

theorem sorted_str_insert (s : Str) (l : List Str) (hl : sorted_str l = true) :
    sorted_str (insert_str s l) = true := by
  induction l with
  | nil => rfl
  | cons t ts ih =>
    simp only [insert_str]
    split
    · next hle => simp [sorted_str, hle, hl]
    · next hgt =>
      have hts' := ih (sorted_str_cons_tail t ts hl)
      have hle : str_le t s = true := by
        rcases str_le_total s t with h | h
        · exact absurd h hgt
        · exact h
      cases ts with
      | nil =>
        simp only [insert_str]
        simp [sorted_str, hle]
      | cons u us =>
        have hhead : str_le t u = true := sorted_str_cons_head t u us hl
        simp only [insert_str] at hts' ⊢
        split at hts'
        · next hle2 =>
          rw [if_pos hle2]
          simp only [sorted_str, Bool.and_eq_true] at hts' ⊢
          exact ⟨hle, hts'⟩
        · next hgt2 =>
          rw [if_neg hgt2]
          simp only [sorted_str, Bool.and_eq_true] at hts' ⊢
          exact ⟨hhead, hts'⟩

theorem sorted_sort_strs (l : List Str) : sorted_str (sort_strs l) = true := by
  induction l with
  | nil => rfl
  | cons s ts ih => exact sorted_str_insert s (sort_strs ts) ih

/-- Shared helper: the extracted identifier list is duplicate-free. -/
theorem unique_ids_nodup (t : Str) : (unique_ids t).Nodup :=
  ((sort_strs_perm _).nodup_iff).mpr (nodup_dedup_strs _)

/-- C8: the extracted identifier sequence is ascending and duplicate-free; it
contains exactly the uppercased regex matches (so case-only variants
collapse); a text with no matches, in particular the empty text, yields the
empty sequence rather than an error.  The function is deterministic because
it is a pure function of the text. -/
theorem extractor_correct (t : Str) :
    sorted_str (unique_ids t) = true ∧
    (unique_ids t).Nodup ∧
    (∀ s, s ∈ unique_ids t ↔ ∃ m ∈ findall_inc t, s = upper_str m) ∧
    (findall_inc t = [] → unique_ids t = []) ∧
    unique_ids [] = [] := by
  refine ⟨sorted_sort_strs _, unique_ids_nodup t, ?_, ?_, rfl⟩
  · intro s
    rw [unique_ids, mem_sort_strs, mem_dedup_strs, List.mem_map]
    constructor
    · rintro ⟨m, hm, hs⟩
      exact ⟨m, hm, hs.symm⟩
    · rintro ⟨m, hm, hs⟩
      exact ⟨m, hm, hs.symm⟩
  · intro h
    rw [unique_ids, h]
    rfl

/-- C8 witness: the spec's end-to-end scenario, `"check inc123 and INC123
please"`, yields the single deduplicated uppercase identifier `INC123`, and a
text without matches yields the empty sequence. -/
theorem extractor_correct_witness :
    unique_ids ("check inc123 and INC123 please".toList) = ["INC123".toList] ∧
    sorted_str (unique_ids ("check inc123 and INC123 please".toList)) = true ∧
    unique_ids ("no identifiers here".toList) = [] :=
  ⟨by decide, (extractor_correct ("check inc123 and INC123 please".toList)).1,
    (extractor_correct ("no identifiers here".toList)).2.2.2.1 (by decide)⟩

/-- A spreadsheet row as fetched by `get_all_records` and normalized by
`get_sheet_as_dataframe` (column names already trimmed and lowercased):
an association list from column name to cell text. -/
abbrev Row := List (Str × Str)

/-- Column access returning `none` when the column is absent. -/
def row_get (r : Row) (c : Str) : Option Str :=
  (r.find? (fun p => p.1 == c)).map (fun p => p.2)

/-- Python `row.get(col, default)`: column access with a default. -/
def row_getD (r : Row) (c : Str) (d : Str) : Str := (row_get r c).getD d

/-- `pd.to_numeric(value, errors='coerce')` for integer-formatted cells:
parse an optionally signed decimal integer after stripping whitespace;
any other cell coerces to NaN, modelled as `none`.  (The pandas parser also
accepts decimals; the claims only need integer cells and the none case.) -/
def digits_to_nat : Str → Option Nat
  | [] => none
  | l => if l.all Char.isDigit then
      some (l.foldl (fun acc c => acc * 10 + (c.toNat - '0'.toNat)) 0)
    else none

def to_numeric (s : Str) : Option Int :=
  match strip_str s with
  | '-' :: rest => (digits_to_nat rest).map (fun n => -(n : Int))
  | '+' :: rest => (digits_to_nat rest).map (fun n => (n : Int))
  | t => (digits_to_nat t).map (fun n => (n : Int))

/-- `THRESHOLD_UMUR` (hourly_report.py line 17). -/
def THRESHOLD_UMUR : Int := 24

/-- Status criterion (hourly_report.py line 63):
`df['status'].str.strip().str.upper() == 'OPEN'`. -/
def status_is_open (r : Row) : Bool :=
  upper_str (strip_str (row_getD r ("status".toList) [])) == "OPEN".toList

/-- Age criterion (hourly_report.py lines 68-69): the cell parsed with
`pd.to_numeric(..., errors='coerce')` is a number below the threshold; a cell
that fails to parse (NaN) never satisfies the comparison. -/
def umur_lt (t : Int) (r : Row) : Bool :=
  match to_numeric (row_getD r ("umur tiket".toList) []) with
  | some n => n < t
  | none => false

/-- `df[df['status'].str.strip().str.upper() == 'OPEN']`. -/
def filter_open (d : List Row) : List Row := d.filter status_is_open

/-- `df_open[df_open['umur_numeric'] < THRESHOLD]`. -/
def filter_umur (t : Int) (d : List Row) : List Row := d.filter (umur_lt t)

/-- The two-step filter pipeline of `generate_and_send_report`. -/
def df_filtered (t : Int) (d : List Row) : List Row := filter_umur t (filter_open d)

/-- Incident criterion of the webhook handler (index.py lines 135-140): the
`incident` column is uppercased, then compared with the (already uppercase)
extracted identifier.  The cell is not stripped. -/
def inc_matches (r : Row) (id : Str) : Bool :=
  upper_str (row_getD r ("incident".toList) []) == id

/-- C2 (amended): a row survives the report filter iff it satisfies both
criteria; a cell that fails numeric parsing never satisfies the less-than
criterion, for every threshold; and the status equality criterion compares
after trimming and uppercasing both sides (the literal `'OPEN'` being its own
trimmed uppercase).  The incident equality criterion of the webhook handler
uppercases but does not trim the cell (see the counterexample). -/
theorem filter_correct (t : Int) (d : List Row) (r : Row) :
    (r ∈ df_filtered t d ↔ r ∈ d ∧ status_is_open r = true ∧ umur_lt t r = true) ∧
    (to_numeric (row_getD r ("umur tiket".toList) []) = none → r ∉ df_filtered t d) ∧
    (status_is_open r =
      (upper_str (strip_str (row_getD r ("status".toList) [])) ==
        upper_str (strip_str ("OPEN".toList)))) := by
  have hmem : r ∈ df_filtered t d ↔ r ∈ d ∧ status_is_open r = true ∧ umur_lt t r = true := by
    unfold df_filtered filter_umur filter_open
    rw [List.mem_filter, List.mem_filter]
    tauto
  refine ⟨hmem, ?_, ?_⟩
  · intro hnone hin
    have h := (hmem.mp hin).2.2
    unfold umur_lt at h
    rw [hnone] at h
    exact Bool.false_ne_true h
  · have : upper_str (strip_str ("OPEN".toList)) = "OPEN".toList := by decide
    rw [this]
    rfl

/-- C2 counterexample: the incident equality criterion does not trim the
cell.  A row whose `incident` cell is `" inc1"` satisfies the claimed
trim-and-uppercase-both-sides equality with `"INC1"`, yet the code's
criterion rejects it and the row lookup finds nothing. -/
theorem filter_correct_counterexample :
    (upper_str (strip_str (" inc1".toList)) == upper_str (strip_str ("INC1".toList))) = true ∧
    inc_matches [("incident".toList, " inc1".toList)] ("INC1".toList) = false := by
  constructor
  · decide
  · decide

/-- C2 witness: a row with status `" open "` (trimmed and uppercased to
`OPEN`) and age `"5"` passes the filter with threshold 24, and a row whose
age cell is non-numeric is excluded. -/
theorem filter_correct_witness :
    ([("status".toList, " open ".toList), ("umur tiket".toList, "5".toList)] ∈
      df_filtered 24 [[("status".toList, " open ".toList), ("umur tiket".toList, "5".toList)]]) ∧
    ([("status".toList, "OPEN".toList), ("umur tiket".toList, "abc".toList)] ∉
      df_filtered 24 [[("status".toList, "OPEN".toList), ("umur tiket".toList, "abc".toList)]]) :=
  ⟨(filter_correct 24 _ _).1.mpr ⟨by simp, by decide, by decide⟩,
    (filter_correct 24 _ _).2.1 (by decide)⟩

/-- The HTML escaper `esc` of `format_incident_details` (index.py lines
78-79).  The Python code applies three sequential single-character
`str.replace` calls (`&`→`&amp;`, `<`→`&lt;`, `>`→`&gt;`); since no later
pattern occurs in an earlier replacement, this equals the character-wise
expansion below. -/
def esc_char (c : Char) : Str :=
  if c = '&' then "&amp;".toList
  else if c = '<' then "&lt;".toList
  else if c = '>' then "&gt;".toList
  else [c]

def esc : Str → Str
  | [] => []
  | c :: rest => esc_char c ++ esc rest

/-- The `field_map` of `format_incident_details` (index.py lines 85-95),
display label to normalized column name, in source order. -/
def field_map : List (Str × Str) :=
  [("‚Ä¢ Contact Name".toList, "contact name".toList),
   ("‚Ä¢ No. HP".toList, "no. hp".toList),
   ("‚Ä¢ User".toList, "user".toList),
   ("‚Ä¢ Customer Type".toList, "customer type".toList),
   ("‚Ä¢ DATEK".toList, "datek".toList),
   ("‚Ä¢ STO".toList, "sto".toList),
   ("‚Ä¢ Status Sugar".toList, "status sugar".toList),
   ("‚Ä¢ Proses TTR 4 Jam".toList, "proses ttr 4 jam".toList),
   ("‚Ä¢ SN".toList, "sn".toList)]

/-- The header line of the detail block (index.py line 82), with the escaped
incident id (default `'N/A'`). -/
def detail_header (r : Row) : Str :=
  "üìÑ Detail Ticket: <code>".toList ++
    esc (row_getD r ("incident".toList) ("N/A".toList)) ++ "</code>".toList

/-- One line per mapping entry whose column is present and nonempty
(index.py lines 97-100); `pd.notna` holds for every text cell, so presence
and nonemptiness are the live conditions. -/
def detail_lines (r : Row) : List Str :=
  field_map.filterMap (fun lc =>
    match row_get r lc.2 with
    | some v => if v = [] then none else some (lc.1 ++ ": ".toList ++ esc v)
    | none => none)

/-- `format_incident_details` (index.py lines 75-102). -/
def format_incident_details (r : Row) : Str :=
  join_nl (detail_header r :: detail_lines r)

/-- One line of the hourly report body (hourly_report.py line 89):
`f"<code>{incident}</code> | {umur} Jam | {cust_type} | {sto}"` —
note that no value is escaped. -/
def report_line (r : Row) : Str :=
  "<code>".toList ++ row_getD r ("incident".toList) [] ++ "</code> | ".toList ++
    row_getD r ("umur tiket".toList) [] ++ " Jam | ".toList ++
    row_getD r ("customer type".toList) [] ++ " | ".toList ++
    row_getD r ("sto".toList) []

theorem esc_char_no_markup (c : Char) :
    (esc_char c).count '<' = 0 ∧ (esc_char c).count '>' = 0 := by
  by_cases h1 : c = '&'
  · subst h1; constructor <;> decide
  · by_cases h2 : c = '<'
    · subst h2; constructor <;> decide
    · by_cases h3 : c = '>'
      · subst h3; constructor <;> decide
      · simp only [esc_char, if_neg h1, if_neg h2, if_neg h3]
        constructor
        · rw [List.count_eq_zero]
          simp only [List.mem_singleton]
          exact Ne.symm h2
        · rw [List.count_eq_zero]
          simp only [List.mem_singleton]
          exact Ne.symm h3

theorem esc_count_eq_zero (ch : Char) (hch : ∀ c, (esc_char c).count ch = 0) :
    ∀ s : Str, (esc s).count ch = 0 := by
  intro s
  induction s with
  | nil => rfl
  | cons c cs ih => simp [esc, List.count_append, hch c, ih]

theorem join_nl_count (ch : Char) (hch : ch ≠ '\n') :
    ∀ l : List Str, (join_nl l).count ch = (l.map (fun s => s.count ch)).sum := by
  intro l
  induction l with
  | nil => rfl
  | cons s rest ih =>
    cases rest with
    | nil => simp [join_nl]
    | cons s2 rs =>
      rw [join_nl_cons_of_ne_nil _ _ (by simp), List.count_append, List.count_cons]
      rw [if_neg (by simpa using Ne.symm hch)]
      simp only [List.map_cons, List.sum_cons] at ih ⊢
      omega

theorem detail_lines_count (r : Row) (ch : Char)
    (hfm : ∀ p ∈ field_map, (p.1 : Str).count ch = 0)
    (hsep : ((": ".toList : Str)).count ch = 0)
    (hesc : ∀ s : Str, (esc s).count ch = 0) :
    ∀ x ∈ detail_lines r, x.count ch = 0 := by
  intro x hx
  rcases List.mem_filterMap.mp hx with ⟨p, hp, hfx⟩
  rcases hmatch : row_get r p.2 with _ | v
  · simp only [hmatch] at hfx
    exact Option.noConfusion hfx
  · simp only [hmatch] at hfx
    by_cases hv : v = []
    · rw [if_pos hv] at hfx
      simp at hfx
    · rw [if_neg hv] at hfx
      have hx2 : x = p.1 ++ ": ".toList ++ esc v := (Option.some.inj hfx).symm
      subst hx2
      rw [List.count_append, List.count_append, hfm p hp, hsep, hesc v]

/-- C4 (amended): in the per-ticket detail formatter every interpolated value
is passed through `esc`, whose output contains no raw `<` or `>`; hence the
formatted block contains exactly the two `<` and two `>` of the fixed
`<code>` template, whatever the row values.  The hourly report line formatter
does not escape its values (see the counterexample). -/
theorem formatter_escaping (r : Row) :
    (format_incident_details r).count '<' = 2 ∧
    (format_incident_details r).count '>' = 2 ∧
    ∀ s : Str, (esc s).count '<' = 0 ∧ (esc s).count '>' = 0 := by
  have hesc_lt : ∀ s : Str, (esc s).count '<' = 0 :=
    esc_count_eq_zero '<' (fun c => (esc_char_no_markup c).1)
  have hesc_gt : ∀ s : Str, (esc s).count '>' = 0 :=
    esc_count_eq_zero '>' (fun c => (esc_char_no_markup c).2)
  have hkey : ∀ ch : Char, ch ≠ '\n' →
      (∀ p ∈ field_map, (p.1 : Str).count ch = 0) →
      ((": ".toList : Str)).count ch = 0 →
      (∀ s : Str, (esc s).count ch = 0) →
      (format_incident_details r).count ch =
        (detail_header r).count ch := by
    intro ch hne hfm hsep hesc
    unfold format_incident_details
    rw [join_nl_count ch hne]
    simp only [List.map_cons, List.sum_cons]
    have hz : ((detail_lines r).map (fun s => s.count ch)).sum = 0 := by
      apply List.sum_eq_zero
      intro y hy
      rcases List.mem_map.mp hy with ⟨x, hx, hxy⟩
      rw [← hxy]
      exact detail_lines_count r ch hfm hsep hesc x hx
    rw [hz]
    omega
  refine ⟨?_, ?_, fun s => ⟨hesc_lt s, hesc_gt s⟩⟩
  · rw [hkey '<' (by decide) (by decide) (by decide) hesc_lt]
    unfold detail_header
    rw [List.count_append, List.count_append, hesc_lt]
    decide
  · rw [hkey '>' (by decide) (by decide) (by decide) hesc_gt]
    unfold detail_header
    rw [List.count_append, List.count_append, hesc_gt]
    decide

/-- Python `s.startswith(p)` on character lists. -/
def starts_with : Str → Str → Bool
  | _, [] => true
  | [], _ :: _ => false
  | c :: cs, p :: ps => c == p && starts_with cs ps

/-- Python `p in s` (substring containment). -/
def infix_of (p : Str) : Str → Bool
  | [] => p.isEmpty
  | c :: rest => starts_with (c :: rest) p || infix_of p rest

/-- A row whose `sto` value contains markup characters. -/
def c4_row : Row :=
  [("incident".toList, "INC9".toList), ("umur tiket".toList, "5".toList),
   ("customer type".toList, "HVC".toList), ("sto".toList, "<b>".toList)]

/-- C4 counterexample: the hourly report line formatter interpolates the raw
value — the report line for a row whose `sto` cell is `"<b>"` contains the
unescaped substring `"<b>"` and no `"&lt;"`. -/
theorem formatter_escaping_counterexample :
    infix_of ("<b>".toList) (report_line c4_row) = true ∧
    infix_of ("&lt;".toList) (report_line c4_row) = false := by
  constructor
  · decide
  · decide

/-- C4 witness: the detail block of a row with markup in a value still shows
exactly the template's two `<` characters. -/
theorem formatter_escaping_witness :
    (format_incident_details c4_row).count '<' = 2 :=
  (formatter_escaping c4_row).1

/-- `required_cols` (hourly_report.py line 56), in the order checked. -/
def required_cols : List Str :=
  ["status".toList, "umur tiket".toList, "incident".toList]

/-- Column membership in the DataFrame built from `get_all_records`: the
columns are the union of the record keys, so an empty record list yields a
DataFrame with no columns at all. -/
def df_has_col (d : List Row) (c : Str) : Bool :=
  d.any (fun r => r.any (fun p => p.1 == c))

/-- The numeric sort key `umur_numeric` (hourly_report.py line 68); in the
sorted pipeline every row has a parsed value, so the default is never used. -/
def umur_key (r : Row) : Int :=
  (to_numeric (row_getD r ("umur tiket".toList) [])).getD 0

/-- Ascending insertion by `umur_numeric`.  This models
`df.sort_values(by='umur_numeric', ascending=True)` up to the order of equal
keys, which pandas' default quicksort leaves unspecified. -/
def insert_row (r : Row) : List Row → List Row
  | [] => [r]
  | x :: xs => if umur_key r ≤ umur_key x then r :: x :: xs else x :: insert_row r xs

def sort_by_umur (l : List Row) : List Row := l.foldr insert_row []

/-- The literal body used when no row survives the filter
(hourly_report.py line 80). -/
def no_tickets_msg : Str := "Tidak ada tiket yang memenuhi kriteria.".toList

/-- Outcome of the body-building part of `generate_and_send_report`: either
the message sent when a required column is missing (lines 57-60) or the
report body (lines 79-90). -/
inductive ReportResult where
  | colError : Str → ReportResult
  | report : Str → ReportResult
deriving DecidableEq

/-- The rows of the report in output order (filter then sort,
hourly_report.py lines 63-72). -/
def report_rows (d : List Row) : List Row :=
  sort_by_umur (df_filtered THRESHOLD_UMUR d)

/-- The data-dependent part of `generate_and_send_report` (hourly_report.py
lines 56-90): the first missing required column aborts with the error
message; otherwise the body is the no-tickets literal or the joined report
lines. -/
def report_body (d : List Row) : ReportResult :=
  match required_cols.find? (fun c => !(df_has_col d c)) with
  | some c => ReportResult.colError c
  | none =>
    ReportResult.report
      (if report_rows d = [] then no_tickets_msg
       else join_nl ((report_rows d).map report_line))

/-- C7 (amended): for every dataset that actually contains the required
columns, an empty result after filtering is not an error — the body is
exactly the no-tickets literal.  (The truly empty dataset instead trips the
required-column check: see the counterexample.) -/
theorem empty_result_report (d : List Row)
    (hcols : ∀ c ∈ required_cols, df_has_col d c = true)
    (hempty : df_filtered THRESHOLD_UMUR d = []) :
    report_body d = ReportResult.report no_tickets_msg := by
  unfold report_body
  rw [List.find?_eq_none.mpr (fun c hc => by simp [hcols c hc])]
  have hrows : report_rows d = [] := by
    unfold report_rows
    rw [hempty]
    rfl
  rw [if_pos hrows]

/-- C7 counterexample: the empty dataset produces a DataFrame with no
columns, so `generate_and_send_report` reports a missing `status` column
instead of the no-tickets body. -/
theorem empty_result_report_counterexample :
    report_body [] = ReportResult.colError ("status".toList) ∧
    report_body [] ≠ ReportResult.report no_tickets_msg := by
  constructor
  · decide
  · decide

/-- C7 witness: a dataset with the required columns whose only row is not
`OPEN` filters to nothing and yields the no-tickets body. -/
theorem empty_result_report_witness :
    report_body [[("status".toList, "CLOSED".toList),
      ("umur tiket".toList, "5".toList), ("incident".toList, "INC1".toList)]] =
      ReportResult.report no_tickets_msg :=
  empty_result_report _ (by decide) (by decide)

/-- `df['incident'] = df['incident'].str.upper()` (index.py line 135),
applied to one row. -/
def upper_incident (r : Row) : Row :=
  r.map (fun p => if p.1 == "incident".toList then (p.1, upper_str p.2) else p)

/-- `df[df['incident'] == incident_id]` followed by `result.iloc[0]`
(index.py lines 140-144): the first row, in dataset order, whose uppercased
incident cell equals the identifier. -/
def find_incident (d : List Row) (id : Str) : Option Row :=
  (d.map upper_incident).find? (fun r => row_getD r ("incident".toList) [] == id)

/-- The not-found reply line (index.py line 147). -/
def not_found_msg (id : Str) : Str :=
  "‚ùå Tidak ditemukan: <code>".toList ++ id ++ "</code>".toList

/-- The reply appended for one extracted identifier (index.py lines
138-147). -/
def reply_for (d : List Row) (id : Str) : Str :=
  match find_incident d id with
  | some r => format_incident_details r
  | none => not_found_msg id

theorem row_getD_upper_incident (r : Row) :
    row_getD (upper_incident r) ("incident".toList) [] =
      upper_str (row_getD r ("incident".toList) []) := by
  induction r with
  | nil => rfl
  | cons p ps ih =>
    cases hb : (p.1 == "incident".toList) with
    | true =>
      have hq : (if p.1 == "incident".toList then (p.1, upper_str p.2) else p)
          = (p.1, upper_str p.2) := if_pos hb
      unfold upper_incident
      rw [List.map_cons, hq]
      unfold row_getD row_get
      simp only [List.find?, hb]
      rfl
    | false =>
      have hne : p.1 ≠ "incident".toList := by
        intro he
        rw [he] at hb
        simp at hb
      have hq : (if p.1 == "incident".toList then (p.1, upper_str p.2) else p) = p :=
        if_neg (by simpa using hne)
      unfold upper_incident
      rw [List.map_cons, hq]
      unfold row_getD row_get
      simp only [List.find?, hb]
      unfold row_getD row_get upper_incident at ih
      exact ih

theorem find_incident_first (d1 : List Row) (r : Row) (d2 : List Row) (id : Str)
    (hr : inc_matches r id = true) :
    (∀ x ∈ d1, inc_matches x id = false) →
    find_incident (d1 ++ r :: d2) id = some (upper_incident r) := by
  induction d1 with
  | nil =>
    intro _
    unfold find_incident
    rw [List.nil_append, List.map_cons]
    simp only [List.find?]
    rw [show (row_getD (upper_incident r) ("incident".toList) [] == id) = true from by
      rw [row_getD_upper_incident]; exact hr]
  | cons x xs ih =>
    intro h1
    unfold find_incident at ih ⊢
    rw [List.cons_append, List.map_cons]
    simp only [List.find?]
    rw [show (row_getD (upper_incident x) ("incident".toList) [] == id) = false from by
      rw [row_getD_upper_incident]; exact h1 x (by simp)]
    exact ih (fun y hy => h1 y (by simp [hy]))

theorem count_le_one_of_nodup (a : Str) :
    ∀ l : List Str, l.Nodup → l.count a ≤ 1 := by
  intro l
  induction l with
  | nil => intro _; simp
  | cons x xs ih =>
    intro h
    rw [List.count_cons]
    by_cases hax : a = x
    · subst hax
      have hz : xs.count a = 0 := by
        rw [List.count_eq_zero]
        exact (List.nodup_cons.mp h).1
      simp [hz]
    · rw [if_neg (by simpa using Ne.symm hax)]
      have := ih (List.nodup_cons.mp h).2
      omega

/-- C10: when an extracted identifier matches several rows, the reply is
built from the first matching row in original dataset order (all later
matching rows — here all of `d2` — are ignored), and the reply list contains
at most one entry per identifier because the extracted id list is
duplicate-free. -/
theorem duplicate_rows_first_match (d1 d2 : List Row) (r : Row) (id : Str)
    (hr : inc_matches r id = true)
    (h1 : ∀ x ∈ d1, inc_matches x id = false) :
    reply_for (d1 ++ r :: d2) id = format_incident_details (upper_incident r) ∧
    ∀ text : Str, (unique_ids text).count id ≤ 1 := by
  constructor
  · unfold reply_for
    rw [find_incident_first d1 r d2 id hr h1]
  · intro text
    exact count_le_one_of_nodup id (unique_ids text) (unique_ids_nodup text)

/-- Rows for the duplicate-resolution witness: a non-matching row, then the
first match (lowercase cell, matched after uppercasing), then a second match
that must be ignored. -/
def c10_d1 : List Row := [[("incident".toList, "INC2".toList)]]

def c10_r : Row := [("incident".toList, "inc1".toList), ("user".toList, "alice".toList)]

def c10_d2 : List Row :=
  [[("incident".toList, "INC1".toList), ("user".toList, "bob".toList)]]

/-- C10 witness: with a later duplicate present, the reply equals the detail
block of the first matching row. -/
theorem duplicate_rows_first_match_witness :
    reply_for (c10_d1 ++ c10_r :: c10_d2) ("INC1".toList) =
      format_incident_details (upper_incident c10_r) :=
  (duplicate_rows_first_match c10_d1 c10_d2 c10_r ("INC1".toList)
    (by decide) (by decide)).1

/-- Outcomes of the external calls made by one invocation of
`handler.do_POST` (index.py lines 107-164); each field records whether the
corresponding step succeeds (`true`) or fails/raises (`false`), except the
two presence flags. -/
structure PostEnv where
  parse_ok : Bool
  chat_and_text : Bool
  has_ids : Bool
  fetch_ok : Bool
  incident_col : Bool
  send_ok : Bool
  admin_id : Bool
  admin_send_ok : Bool

/-- The `except` branch (index.py lines 153-158): when `MY_CHAT_ID` is
configured, the error-report `send_message` is called with no guard of its
own, so its raising escapes `do_POST` before the final acknowledgment. -/
def post_except_path (e : PostEnv) : Bool := !(e.admin_id && !e.admin_send_ok)

/-- Whether `do_POST` reaches its HTTP 200 acknowledgment, as a function of
the step outcomes (the early returns at lines 117-120 and 124-127 send the
acknowledgment before returning; any raise in the `try` body goes through
the `except` branch and then line 161). -/
def do_POST_acks (e : PostEnv) : Bool :=
  if !e.parse_ok then post_except_path e
  else if !e.chat_and_text then true
  else if !e.has_ids then true
  else if !e.fetch_ok then post_except_path e
  else if !e.incident_col then post_except_path e
  else if !e.send_ok then post_except_path e
  else true

/-- Outcomes of the external calls of one `do_GET` invocation
(hourly_report.py): `fetch = none` means `get_sheet_as_dataframe` raised. -/
structure GetEnv where
  env_vars_ok : Bool
  fetch : Option (List Row)
  col_send_ok : Bool
  final_send_ok : Bool
  admin_send_ok : Bool

/-- Whether the `try` block of `generate_and_send_report` (hourly_report.py
lines 52-93) raises: a failed fetch raises; with a missing required column
the error send itself may raise (line 59); otherwise the final send may
raise (line 93).  A successful column-error send returns without raising. -/
def get_try_raises (e : GetEnv) : Bool :=
  match e.fetch with
  | none => true
  | some d =>
    match required_cols.find? (fun c => !(df_has_col d c)) with
    | some _ => !e.col_send_ok
    | none => !e.final_send_ok

/-- Whether `do_GET` (hourly_report.py lines 102-111) reaches its HTTP 200:
`generate_and_send_report` is called with no surrounding guard, so a raise
escaping it — only possible from the `except` branch's own `send_message`
(line 97) — prevents the acknowledgment. -/
def do_GET_acks (e : GetEnv) : Bool :=
  if !e.env_vars_ok then true
  else if get_try_raises e then e.admin_send_ok
  else true

/-- C3 counterexample: a processing error (here a JSON parse failure, resp. a
fetch failure) combined with a raising admin error-report send leaves both
handlers without their 200 acknowledgment. -/
theorem ack_counterexample :
    do_POST_acks (PostEnv.mk false true true true true true true false) = false ∧
    do_GET_acks (GetEnv.mk true none true true false) = false := by
  constructor
  · decide
  · decide

/-- C3 (amended): every processing error raised inside the handler body is
caught and the handler completes with its 200 acknowledgment, provided the
best-effort admin error notification in the `except` branch does not itself
raise (for the webhook handler, also when no admin chat is configured). -/
theorem ack_always (e1 : PostEnv) (e2 : GetEnv)
    (h1 : e1.admin_id = false ∨ e1.admin_send_ok = true)
    (h2 : e2.admin_send_ok = true) :
    do_POST_acks e1 = true ∧ do_GET_acks e2 = true := by
  have hep : post_except_path e1 = true := by
    unfold post_except_path
    rcases h1 with h | h <;> simp [h]
  constructor
  · unfold do_POST_acks
    split
    · exact hep
    · split
      · rfl
      · split
        · rfl
        · split
          · exact hep
          · split
            · exact hep
            · split
              · exact hep
              · rfl
  · unfold do_GET_acks
    split
    · rfl
    · split
      · exact h2
      · rfl

/-- C3 witness: with a healthy admin path both handlers acknowledge. -/
theorem ack_always_witness :
    do_POST_acks (PostEnv.mk true true true true true true false false) = true ∧
    do_GET_acks (GetEnv.mk true (some []) true true true) = true :=
  ack_always (PostEnv.mk true true true true true true false false)
    (GetEnv.mk true (some []) true true true) (Or.inl rfl) rfl

/-- The chunk texts for which a `send_message` call is actually started,
given an oracle saying which call (by position) raises a transport
exception.  `send_chunked_message` performs its sends inside the
accumulation loop with no per-send guard, so a raising send aborts the loop
and the remaining chunks are never attempted. -/
def attempted_aux (raises : Nat → Bool) : Nat → List Str → List Str
  | _, [] => []
  | i, c :: cs => if raises i then [c] else c :: attempted_aux raises (i + 1) cs

def attempted_sends (chunks : List Str) (raises : Nat → Bool) : List Str :=
  attempted_aux raises 0 chunks

/-- C9 counterexample: the chunker yields two chunks for `"aa\nbb"` with
size 3, but when the first send raises, the second chunk is never
attempted. -/
theorem notifier_counterexample :
    send_chunked_message ("aa\nbb".toList) 3 = ["aa".toList, "bb".toList] ∧
    attempted_sends (send_chunked_message ("aa\nbb".toList) 3) (fun i => i == 0) =
      ["aa".toList] := by
  constructor
  · decide
  · decide

theorem attempted_aux_all (raises : Nat → Bool) (h : ∀ i, raises i = false) :
    ∀ (l : List Str) (i : Nat), attempted_aux raises i l = l := by
  intro l
  induction l with
  | nil => intro i; rfl
  | cons c cs ih =>
    intro i
    simp [attempted_aux, h i, ih (i + 1)]

/-- C9 (amended): when no send raises an exception — delivery failures
surfacing only in the HTTP response, which the code ignores — every chunk
produced by the chunker is attempted, independently and in order; a raising
send, however, aborts the remaining chunks (see the counterexample). -/
theorem notifier_all_attempted (T : Str) (M : Nat) (raises : Nat → Bool)
    (h : ∀ i, raises i = false) :
    attempted_sends (send_chunked_message T M) raises = send_chunked_message T M :=
  attempted_aux_all raises h (send_chunked_message T M) 0

/-- C9 witness: with no raising send, both chunks of `"aa\nbb"` at size 3 are
attempted in order. -/
theorem notifier_all_attempted_witness :
    attempted_sends (send_chunked_message ("aa\nbb".toList) 3) (fun _ => false) =
      send_chunked_message ("aa\nbb".toList) 3 :=
  notifier_all_attempted ("aa\nbb".toList) 3 (fun _ => false) (fun _ => rfl)
